import Mathlib

/-!
Verification of the MClip clip-extraction pipeline (backend/src/ai.py and
backend/src/video_utils.py) against its natural-language specification.

Strings are modelled as `List Char` (`Str`).  Python floats are modelled as
rationals (`ℚ`); rational literals are written with `mkRat` so that all
definitions evaluate inside the kernel.  JSON dictionaries produced by the
LLM are modelled as records whose fields are `Option`-typed: `none` models a
missing key, `some v` a present key holding a value of the expected type.
-/

abbrev Str := List Char

/-- Whitespace test matching Python's `str.strip` / `str.split` ASCII set. -/
def isSpacePy (c : Char) : Bool :=
  c = ' ' || c = '\t' || c = '\n' || c = '\x0d' || c = '\x0b' || c = '\x0c'

/-- Model of Python `str.strip()`: drop leading and trailing whitespace. -/
def stripChars (cs : Str) : Str :=
  ((cs.dropWhile isSpacePy).reverse.dropWhile isSpacePy).reverse

/-- Model of Python `str.split(sep)` for a single-character separator:
splits on every occurrence, keeping empty fields. -/
def splitOnChar (sep : Char) : Str → List Str
  | [] => [[]]
  | c :: cs =>
    if c = sep then [] :: splitOnChar sep cs
    else
      match splitOnChar sep cs with
      | [] => [[c]]
      | p :: ps => (c :: p) :: ps

/-- Helper for `splitWs`: `cur` is the reversed current word. -/
def splitWsGo (cur : Str) : Str → List Str
  | [] => if cur.isEmpty then [] else [cur.reverse]
  | c :: cs =>
    if isSpacePy c then
      if cur.isEmpty then splitWsGo [] cs else cur.reverse :: splitWsGo [] cs
    else splitWsGo (c :: cur) cs

/-- Model of Python `str.split()` with no arguments: split on whitespace
runs, dropping empty tokens. -/
def splitWs (cs : Str) : List Str := splitWsGo [] cs

/-- Digits 0–9 rendered as characters. -/
def digitChar (d : ℕ) : Char :=
  match d with
  | 0 => '0' | 1 => '1' | 2 => '2' | 3 => '3' | 4 => '4'
  | 5 => '5' | 6 => '6' | 7 => '7' | 8 => '8' | _ => '9'

/-- Helper for `renderNat`: fuel-based base-10 rendering (the fuel, at
least the number itself, makes the recursion structural so that the
kernel can evaluate it). -/
def renderNatAux : ℕ → ℕ → Str
  | 0, _ => []
  | _, 0 => []
  | fuel + 1, n + 1 =>
    renderNatAux fuel ((n + 1) / 10) ++ [digitChar ((n + 1) % 10)]

/-- Decimal rendering of a natural number (empty for 0; used with padding
or via `pyReprNat`). -/
def renderNat (n : ℕ) : Str := renderNatAux n n

/-- Model of Python `str(n)` for a natural number. -/
def pyReprNat (n : ℕ) : Str := if n = 0 then ['0'] else renderNat n

/-- Zero-padding to width 2, as in Python's format specifier `02d`. -/
def pad2 (cs : Str) : Str :=
  if cs.length < 2 then List.replicate (2 - cs.length) '0' ++ cs else cs

/-- Model of `video_utils.format_timestamp` restricted to whole seconds:
renders `MM:SS` where `MM = seconds // 60` (not reduced modulo 60) and
`SS = seconds % 60`, each zero-padded to two digits. -/
def format_timestamp (seconds : ℕ) : Str :=
  pad2 (renderNat (seconds / 60)) ++ ':' :: pad2 (renderNat (seconds % 60))

/-- Value of a digit string under left-to-right base-10 accumulation. -/
def digitsFold (cs : Str) : ℕ :=
  cs.foldl (fun a c => 10 * a + (c.toNat - 48)) 0

/-- Digit-string recogniser: `some` value when the string is a non-empty
run of ASCII digits, else `none`. -/
def digitsVal (cs : Str) : Option ℕ :=
  if !cs.isEmpty && cs.all Char.isDigit then some (digitsFold cs) else none

/-- Model of Python `int(str)`: strips whitespace, accepts an optional
sign followed by a non-empty digit run. -/
def pyInt (cs0 : Str) : Option Int :=
  let cs := stripChars cs0
  if cs.head? = some '-' then (digitsVal cs.tail).map (fun n => -(n : Int))
  else if cs.head? = some '+' then (digitsVal cs.tail).map (fun n => (n : Int))
  else (digitsVal cs).map (fun n => (n : Int))

/-- Model of the seconds-component conversion in `ai.parse_timestamp_to_seconds`:
`int(seconds.split(".")[0])` when a dot is present, else `int(seconds)`. -/
def pySecondsInt (cs : Str) : Option Int :=
  if cs.contains '.' then pyInt (cs.takeWhile (fun c => c ≠ '.'))
  else pyInt cs

/-- Model of `ai.parse_timestamp_to_seconds`: strip, split on `:`, accept
two (`MM:SS`) or three (`HH:MM:SS`) integer components, reject negative
components, and return total seconds.  `none` models the `ValueError`
raised by the Python function. -/
def parse_timestamp_to_seconds (ts0 : Str) : Option Int :=
  let ts := stripChars ts0
  match splitOnChar ':' ts with
  | [minutes, seconds] => do
    let minutes_i ← pyInt minutes
    let seconds_i ← pySecondsInt seconds
    if seconds_i < 0 ∨ minutes_i < 0 then none
    else some (minutes_i * 60 + seconds_i)
  | [hours, minutes, seconds] => do
    let hours_i ← pyInt hours
    let minutes_i ← pyInt minutes
    let seconds_i ← pySecondsInt seconds
    if seconds_i < 0 ∨ minutes_i < 0 ∨ hours_i < 0 then none
    else some (hours_i * 3600 + minutes_i * 60 + seconds_i)
  | _ => none

-- Round-trip infrastructure for the timestamp formatter/parser pair.

theorem digitChar_isDigit {d : ℕ} (h : d < 10) : (digitChar d).isDigit = true := by
  interval_cases d <;> decide

theorem digitChar_toNat {d : ℕ} (h : d < 10) : (digitChar d).toNat - 48 = d := by
  interval_cases d <;> decide

theorem renderNatAux_all_digits (fuel : ℕ) :
    ∀ n, ∀ c ∈ renderNatAux fuel n, c.isDigit = true := by
  induction fuel with
  | zero => intro n c hc; simp [renderNatAux] at hc
  | succ fuel ih =>
    intro n c hc
    cases n with
    | zero => simp [renderNatAux] at hc
    | succ m =>
      simp only [renderNatAux, List.mem_append, List.mem_singleton] at hc
      rcases hc with hc | rfl
      · exact ih _ c hc
      · exact digitChar_isDigit (Nat.mod_lt _ (by norm_num))

theorem renderNat_all_digits (n : ℕ) : ∀ c ∈ renderNat n, c.isDigit = true :=
  renderNatAux_all_digits n n

theorem pad2_all_digits {cs : Str} (h : ∀ c ∈ cs, c.isDigit = true) :
    ∀ c ∈ pad2 cs, c.isDigit = true := by
  intro c hc
  simp only [pad2] at hc
  split at hc
  · rcases List.mem_append.mp hc with h1 | h2
    · rw [List.eq_of_mem_replicate h1]; decide
    · exact h c h2
  · exact h c hc

theorem pad2_ne_nil (cs : Str) : pad2 cs ≠ [] := by
  simp only [pad2]
  split
  · rename_i hlen
    intro hemp
    rcases List.append_eq_nil.mp hemp with ⟨h1, h2⟩
    have := congrArg List.length h1
    simp at this
    omega
  · rename_i hlen
    intro hemp
    subst hemp
    simp at hlen

theorem foldl_digit_step_zeros (k : ℕ) (a : ℕ) :
    List.foldl (fun a c => 10 * a + (c.toNat - 48)) a (List.replicate k '0')
      = a * 10 ^ k := by
  induction k generalizing a with
  | zero => simp
  | succ k ih =>
    simp only [List.replicate_succ, List.foldl_cons]
    rw [ih]
    have : ('0').toNat - 48 = 0 := by decide
    rw [this]
    ring

theorem digitsFold_append_singleton (xs : Str) (c : Char) :
    digitsFold (xs ++ [c]) = 10 * digitsFold xs + (c.toNat - 48) := by
  simp [digitsFold, List.foldl_append]

theorem renderNatAux_fold (fuel : ℕ) :
    ∀ n ≤ fuel, digitsFold (renderNatAux fuel n) = n := by
  induction fuel with
  | zero =>
    intro n hn
    interval_cases n
    rfl
  | succ fuel ih =>
    intro n hn
    cases n with
    | zero => rfl
    | succ m =>
      show digitsFold (renderNatAux fuel ((m + 1) / 10) ++ [digitChar ((m + 1) % 10)])
        = m + 1
      have hdiv : (m + 1) / 10 ≤ fuel := by
        have := Nat.div_lt_self (Nat.succ_pos m) (by norm_num : 1 < 10)
        omega
      rw [digitsFold_append_singleton, ih _ hdiv,
        digitChar_toNat (Nat.mod_lt _ (by norm_num))]
      omega

theorem digitsFold_renderNat (n : ℕ) : digitsFold (renderNat n) = n :=
  renderNatAux_fold n n le_rfl

theorem digitsFold_pad2_renderNat (n : ℕ) : digitsFold (pad2 (renderNat n)) = n := by
  simp only [pad2]
  split
  · simp only [digitsFold, List.foldl_append]
    rw [show List.foldl (fun a c => 10 * a + (c.toNat - 48)) 0
          (List.replicate (2 - (renderNat n).length) '0') = 0 by
        rw [foldl_digit_step_zeros]; ring]
    exact digitsFold_renderNat n
  · exact digitsFold_renderNat n

theorem digitsVal_pad2_renderNat (n : ℕ) :
    digitsVal (pad2 (renderNat n)) = some n := by
  simp only [digitsVal]
  rw [if_pos]
  · rw [digitsFold_pad2_renderNat]
  · apply Bool.and_eq_true_iff.mpr
    constructor
    · simp [List.isEmpty_iff, pad2_ne_nil]
    · rw [List.all_eq_true]
      exact fun c hc => pad2_all_digits (renderNat_all_digits n) c hc

theorem isDigit_not_space {c : Char} (h : c.isDigit = true) : isSpacePy c = false := by
  cases hc : isSpacePy c
  · rfl
  · exfalso
    simp only [isSpacePy, Bool.or_eq_true, decide_eq_true_eq] at hc
    rcases hc with ((((hc | hc) | hc) | hc) | hc) | hc <;> subst hc <;>
      exact absurd h (by decide)

theorem isDigit_ne {c : Char} (h : c.isDigit = true) :
    c ≠ ':' ∧ c ≠ '.' ∧ c ≠ '-' ∧ c ≠ '+' := by
  refine ⟨?_, ?_, ?_, ?_⟩ <;> rintro rfl <;> exact absurd h (by decide)

theorem dropWhile_eq_self_of_none {p : Char → Bool} {cs : Str}
    (h : ∀ c ∈ cs, p c = false) : cs.dropWhile p = cs := by
  cases cs with
  | nil => rfl
  | cons c cs =>
    simp [List.dropWhile_cons, h c (List.mem_cons_self c cs)]

theorem stripChars_eq_self {cs : Str} (h : ∀ c ∈ cs, isSpacePy c = false) :
    stripChars cs = cs := by
  simp only [stripChars]
  rw [dropWhile_eq_self_of_none h]
  rw [dropWhile_eq_self_of_none (fun c hc => h c (List.mem_reverse.mp hc))]
  simp

theorem splitOnChar_no_sep {sep : Char} {l : Str} (h : ∀ c ∈ l, c ≠ sep) :
    splitOnChar sep l = [l] := by
  induction l with
  | nil => rfl
  | cons c cs ih =>
    simp only [splitOnChar]
    rw [if_neg (by simpa using h c (List.mem_cons_self c cs))]
    rw [ih (fun x hx => h x (List.mem_cons_of_mem c hx))]

theorem splitOnChar_append {sep : Char} {xs ys : Str}
    (hx : ∀ c ∈ xs, c ≠ sep) (hy : ∀ c ∈ ys, c ≠ sep) :
    splitOnChar sep (xs ++ sep :: ys) = [xs, ys] := by
  induction xs with
  | nil =>
    rw [List.nil_append, splitOnChar, if_pos rfl, splitOnChar_no_sep hy]
  | cons x xs ih =>
    rw [List.cons_append, splitOnChar,
      if_neg (by simpa using hx x (List.mem_cons_self x xs)),
      ih (fun c hc => hx c (List.mem_cons_of_mem x hc))]

theorem pyInt_pad2_renderNat (n : ℕ) : pyInt (pad2 (renderNat n)) = some (n : Int) := by
  have hdig : ∀ c ∈ pad2 (renderNat n), c.isDigit = true :=
    pad2_all_digits (renderNat_all_digits n)
  have hstrip : stripChars (pad2 (renderNat n)) = pad2 (renderNat n) :=
    stripChars_eq_self (fun c hc => isDigit_not_space (hdig c hc))
  simp only [pyInt, hstrip]
  have hne : pad2 (renderNat n) ≠ [] := pad2_ne_nil _
  obtain ⟨c, cs, hcons⟩ := List.exists_cons_of_ne_nil hne
  have hcdig : c.isDigit = true := hdig c (by rw [hcons]; exact List.mem_cons_self c cs)
  rw [hcons]
  rw [if_neg (by simp only [List.head?_cons, Option.some.injEq]
                 exact (isDigit_ne hcdig).2.2.1)]
  rw [if_neg (by simp only [List.head?_cons, Option.some.injEq]
                 exact (isDigit_ne hcdig).2.2.2)]
  rw [← hcons, digitsVal_pad2_renderNat]
  rfl

theorem pySecondsInt_pad2_renderNat (n : ℕ) :
    pySecondsInt (pad2 (renderNat n)) = some (n : Int) := by
  have hdig : ∀ c ∈ pad2 (renderNat n), c.isDigit = true :=
    pad2_all_digits (renderNat_all_digits n)
  simp only [pySecondsInt]
  rw [if_neg]
  · exact pyInt_pad2_renderNat n
  · intro hcon
    have hmem : '.' ∈ pad2 (renderNat n) := by simpa using hcon
    exact (isDigit_ne (hdig _ hmem)).2.1 rfl

theorem parse_format_roundtrip (s : ℕ) :
    parse_timestamp_to_seconds (format_timestamp s) = some (s : Int) := by
  have hdigM : ∀ c ∈ pad2 (renderNat (s / 60)), c.isDigit = true :=
    pad2_all_digits (renderNat_all_digits _)
  have hdigS : ∀ c ∈ pad2 (renderNat (s % 60)), c.isDigit = true :=
    pad2_all_digits (renderNat_all_digits _)
  have hnospace : ∀ c ∈ format_timestamp s, isSpacePy c = false := by
    intro c hc
    simp only [format_timestamp] at hc
    rcases List.mem_append.mp hc with h | h
    · exact isDigit_not_space (hdigM c h)
    · rcases List.mem_cons.mp h with rfl | h
      · decide
      · exact isDigit_not_space (hdigS c h)
  simp only [parse_timestamp_to_seconds]
  rw [stripChars_eq_self hnospace]
  simp only [format_timestamp]
  rw [splitOnChar_append
      (fun c hc => (isDigit_ne (hdigM c hc)).1)
      (fun c hc => (isDigit_ne (hdigS c hc)).1)]
  simp only [pyInt_pad2_renderNat, pySecondsInt_pad2_renderNat, Option.bind_eq_bind,
    Option.some_bind]
  rw [if_neg]
  · congr 1
    push_cast
    have := Nat.div_add_mod s 60
    omega
  · push_cast
    omega

-- Constants from ai.py.

def MIN_SEGMENT_DURATION : Int := 30
def MAX_SEGMENT_DURATION : Int := 60
def MIN_SEGMENTS : ℕ := 3
def MAX_SEGMENTS : ℕ := 5

/-- Default relevance score used by the validator and the expander when the
candidate dict has no `relevance_score` key: Python's `0.8`. -/
def DEFAULT_SCORE : ℚ := mkRat 4 5

/-- Default reasoning string used when the candidate dict has no
`reasoning` key. -/
def DEFAULT_REASONING : Str :=
  ['E', 'n', 'g', 'a', 'g', 'i', 'n', 'g', ' ', 's', 'e', 'g', 'm', 'e', 'n', 't']

/-- Model of a candidate-segment JSON dict as produced by the LLM (or by the
expander).  A `none` field models a missing key; the value types are those
the pipeline expects (strings for times/text/reasoning, a number for the
relevance score). -/
structure Candidate where
  start_time : Option Str
  end_time : Option Str
  text : Option Str
  relevance_score : Option ℚ
  reasoning : Option Str
deriving DecidableEq

/-- Model of `ai.TranscriptSegment`. -/
structure TranscriptSegment where
  start_time : Str
  end_time : Str
  text : Str
  relevance_score : ℚ
  reasoning : Str
deriving DecidableEq

/-- The `TranscriptSegment` the validator builds from a candidate dict,
filling the documented defaults for missing keys. -/
def toSegment (seg : Candidate) : TranscriptSegment :=
  { start_time := seg.start_time.getD []
    end_time := seg.end_time.getD []
    text := seg.text.getD []
    relevance_score := seg.relevance_score.getD DEFAULT_SCORE
    reasoning := seg.reasoning.getD DEFAULT_REASONING }

/-- Validation of one candidate, mirroring the body of the `for` loop of
`ai.validate_segments`: `none` models the `continue` taken on a failed
check or on a `ValueError` raised by timestamp parsing. -/
def validateOne (seg : Candidate) : Option TranscriptSegment := do
  let start_time := seg.start_time.getD []
  let end_time := seg.end_time.getD []
  let text := seg.text.getD []
  let relevance_score := seg.relevance_score.getD DEFAULT_SCORE
  let reasoning := seg.reasoning.getD DEFAULT_REASONING
  if text.isEmpty || (splitWs text).length < 3 then none
  else do
    let start_sec ← parse_timestamp_to_seconds start_time
    let end_sec ← parse_timestamp_to_seconds end_time
    let duration := end_sec - start_sec
    if duration < MIN_SEGMENT_DURATION ∨ duration > MAX_SEGMENT_DURATION then none
    else if ¬ (0 ≤ relevance_score ∧ relevance_score ≤ 1) then none
    else some { start_time := start_time, end_time := end_time, text := text,
                relevance_score := relevance_score, reasoning := reasoning }

/-- Model of `ai.validate_segments`: the loop over candidate dicts, keeping
(in input order) exactly those that pass every check. -/
def validate_segments : List Candidate → List TranscriptSegment
  | [] => []
  | seg :: rest =>
    match validateOne seg with
    | some s => s :: validate_segments rest
    | none => validate_segments rest

-- Spec-side acceptance predicate, written from the validation rules of
-- spec.md §4.3 ("Reject if: text empty or fewer than 3 whitespace-split
-- tokens; start_time or end_time cannot be parsed as [HH:]MM:SS with
-- non-negative components; duration outside [MIN, MAX]; relevance_score
-- outside [0.0, 1.0]").

/-- Spec-side rejection condition for a candidate, following the wording of
the specification's four validation bullets: reject when the text is empty
or has fewer than 3 whitespace-split tokens, when either timestamp cannot
be parsed as `[HH:]MM:SS` with non-negative components, when the computed
duration `end_s - start_s` lies outside `[30, 60]`, or when the relevance
score lies outside `[0.0, 1.0]`. -/
def specRejects (seg : Candidate) : Bool :=
  ((seg.text.getD []).isEmpty || decide ((splitWs (seg.text.getD [])).length < 3))
  || (parse_timestamp_to_seconds (seg.start_time.getD [])).isNone
  || (parse_timestamp_to_seconds (seg.end_time.getD [])).isNone
  || (match parse_timestamp_to_seconds (seg.start_time.getD []),
        parse_timestamp_to_seconds (seg.end_time.getD []) with
      | some s, some e =>
        decide (e - s < MIN_SEGMENT_DURATION) || decide (e - s > MAX_SEGMENT_DURATION)
      | _, _ => false)
  || decide (seg.relevance_score.getD DEFAULT_SCORE < 0)
  || decide (seg.relevance_score.getD DEFAULT_SCORE > 1)

theorem validateOne_eq (seg : Candidate) :
    validateOne seg = if specRejects seg then none else some (toSegment seg) := by
  unfold validateOne specRejects
  by_cases h1 : ((seg.text.getD []).isEmpty
      || decide ((splitWs (seg.text.getD [])).length < 3)) = true
  · simp [h1]
  · rw [Bool.not_eq_true] at h1
    cases hs : parse_timestamp_to_seconds (seg.start_time.getD []) with
    | none => simp [h1, hs]
    | some s =>
      cases he : parse_timestamp_to_seconds (seg.end_time.getD []) with
      | none => simp [h1, hs, he]
      | some e =>
        by_cases hd : (e - s < MIN_SEGMENT_DURATION ∨ e - s > MAX_SEGMENT_DURATION)
        · simp [h1, hs, he, hd]
        · by_cases hsc : (0 ≤ seg.relevance_score.getD DEFAULT_SCORE
              ∧ seg.relevance_score.getD DEFAULT_SCORE ≤ 1)
          · simp [h1, hs, he, hd, hsc, toSegment, not_lt.mpr hsc.1, not_lt.mpr hsc.2]
          · rcases not_and_or.mp hsc with hlow | hhigh
            · simp [h1, hs, he, hd, hsc, not_le.mp hlow]
            · simp [h1, hs, he, hd, hsc, not_le.mp hhigh]

theorem validate_segments_eq_filter (l : List Candidate) :
    validate_segments l = (l.filter (fun c => !specRejects c)).map toSegment := by
  induction l with
  | nil => rfl
  | cons seg rest ih =>
    simp only [validate_segments, validateOne_eq, List.filter_cons]
    by_cases h : specRejects seg
    · simp [h, ih]
    · simp [h, ih]

-- Transcript-line parsing and the fallback expander (ai.py lines 554-642).

/-- Model of a parsed transcript line entry as built by
`ai._parse_transcript_lines`. -/
structure TEntry where
  start_time : Str
  end_time : Str
  start_s : Int
  end_s : Int
  text : Str
deriving DecidableEq

/-- Model of Python `str.splitlines()` for the line breaks `\n`, `\r\n`
and `\r` (the exotic Unicode line breaks Python also recognises are not
modelled; the pipeline's transcripts are newline-joined). -/
def splitLinesGo (acc : Str) : Str → List Str
  | [] => if acc.isEmpty then [] else [acc.reverse]
  | '\x0d' :: '\n' :: cs => acc.reverse :: splitLinesGo [] cs
  | '\x0d' :: cs => acc.reverse :: splitLinesGo [] cs
  | '\n' :: cs => acc.reverse :: splitLinesGo [] cs
  | c :: cs => splitLinesGo (c :: acc) cs

/-- Model of Python `str.splitlines()`. -/
def splitLines (cs : Str) : List Str := splitLinesGo [] cs

/-- Direct scanner equivalent to matching the anchored regular expression
of `_parse_transcript_lines` — bracketed `MM:SS` pair, optional spacing
around the dash, then the rest of the line as text — returning the two
timestamp strings and the text. -/
def matchLine (cs : Str) : Option (Str × Str × Str) :=
  match cs with
  | '[' :: a :: b :: ':' :: c :: d :: rest =>
    if a.isDigit && b.isDigit && c.isDigit && d.isDigit then
      match rest.dropWhile isSpacePy with
      | '-' :: rest2 =>
        match rest2.dropWhile isSpacePy with
        | e :: f :: ':' :: g :: h :: ']' :: rest3 =>
          if e.isDigit && f.isDigit && g.isDigit && h.isDigit then
            some ([a, b, ':', c, d], [e, f, ':', g, h], rest3.dropWhile isSpacePy)
          else none
        | _ => none
      | _ => none
    else none
  | _ => none

/-- Processing of one transcript line inside `_parse_transcript_lines`:
match the pattern, parse both timestamps, and drop entries whose end does
not lie strictly after their start. -/
def parseTranscriptLine (line : Str) : Option TEntry := do
  let (startT, endT, text) ← matchLine (stripChars line)
  let start_s ← parse_timestamp_to_seconds startT
  let end_s ← parse_timestamp_to_seconds endT
  if end_s ≤ start_s then none
  else some ⟨startT, endT, start_s, end_s, text⟩

/-- Model of `ai._parse_transcript_lines`. -/
def _parse_transcript_lines (transcript : Str) : List TEntry :=
  (splitLines transcript).filterMap parseTranscriptLine

/-- Rendering of seconds as `MM:SS` inside the expander
(`f-string 02d:02d` on `n // 60` and `n % 60`); all reachable inputs are
non-negative. -/
def fmtMS (n : Int) : Str := format_timestamp n.toNat

/-- Search for the first transcript entry starting at or after
`start_s - 1` (the expander's one-second drift allowance), together with
the entries after it. -/
def findStart (start_s : Int) : List TEntry → Option (TEntry × List TEntry)
  | [] => none
  | e :: es => if e.start_s ≥ start_s - 1 then some (e, es) else findStart start_s es

/-- Model of the expander's inner `while` loop (ai.py lines 616-622):
while the running duration is below `MIN_SEGMENT_DURATION` and lines
remain, append the next line's text and move the end time to that line's
end; after appending, stop if the new duration exceeds
`MAX_SEGMENT_DURATION`.  Returns the final end time and the appended
texts, in order. -/
def growLoop (new_start_s : Int) (new_end_s : Int) : List TEntry → Int × List Str
  | [] => (new_end_s, [])
  | e :: es =>
    if new_end_s - new_start_s < MIN_SEGMENT_DURATION then
      if e.end_s - new_start_s > MAX_SEGMENT_DURATION then (e.end_s, [e.text])
      else
        let r := growLoop new_start_s e.end_s es
        (r.1, e.text :: r.2)
    else (new_end_s, [])

/-- Model of Python `" ".join`. -/
def joinSpace : List Str → Str
  | [] => []
  | [w] => w
  | w :: ws => w ++ ' ' :: joinSpace ws

/-- Expansion of one rejected candidate (the body of the `for` loop of
`ai._expand_segments_with_transcript`): parse the candidate's timestamps,
seed the expansion at the first transcript entry within one second of the
candidate's start, grow with `growLoop`, and emit the expanded candidate
when the final duration lies in
`[MIN_SEGMENT_DURATION, MAX_SEGMENT_DURATION + 2]`. -/
def expandOne (entries : List TEntry) (seg : Candidate) : Option Candidate := do
  let seg_start := stripChars (seg.start_time.getD [])
  let seg_end := stripChars (seg.end_time.getD [])
  let base_text := seg.text.getD []
  let score := seg.relevance_score.getD DEFAULT_SCORE
  let reasoning := seg.reasoning.getD DEFAULT_REASONING
  let _start_s ← parse_timestamp_to_seconds seg_start
  let _end_s ← parse_timestamp_to_seconds seg_end
  let (e0, rest) ← findStart _start_s entries
  let new_start_s := e0.start_s
  let grown := growLoop new_start_s e0.end_s rest
  let new_end_s := grown.1
  let combined_texts := e0.text :: grown.2
  let new_duration := new_end_s - new_start_s
  if new_duration < MIN_SEGMENT_DURATION ∨ new_duration > MAX_SEGMENT_DURATION + 2 then
    none
  else
    some { start_time := some (fmtMS new_start_s)
           end_time := some (fmtMS new_end_s)
           text := some (stripChars (base_text ++ ' ' :: joinSpace combined_texts))
           relevance_score := some score
           reasoning := some reasoning }

/-- Model of `ai._expand_segments_with_transcript`: parse the transcript
lines (aborting when none parse) and expand each candidate in order. -/
def _expand_segments_with_transcript (transcript : Str)
    (segments_data : List Candidate) : List Candidate :=
  let entries := _parse_transcript_lines transcript
  if entries.isEmpty then []
  else segments_data.filterMap (expandOne entries)

-- Post-processing in get_most_relevant_parts_by_transcript (lines 861-891).

/-- Descending-score ordering used when sorting segments
(`sort(key=relevance_score, reverse=True)`). -/
def scoreGe (a b : TranscriptSegment) : Prop :=
  b.relevance_score ≤ a.relevance_score

instance : DecidableRel scoreGe :=
  fun a b => inferInstanceAs (Decidable (b.relevance_score ≤ a.relevance_score))

instance : IsTotal TranscriptSegment scoreGe :=
  ⟨fun a b => le_total b.relevance_score a.relevance_score⟩

instance : IsTrans TranscriptSegment scoreGe :=
  ⟨fun _ _ _ h1 h2 => le_trans h2 h1⟩

/-- Stable sort by relevance score descending followed by truncation to
`MAX_SEGMENTS`, as performed after validation and again after the
fallback merge. -/
def sortTrim (l : List TranscriptSegment) : List TranscriptSegment :=
  (List.insertionSort scoreGe l).take MAX_SEGMENTS

/-- Helper of `mergeDedup`: append segments whose `(start_time, end_time)`
key has not been seen, updating the seen-key set as the loop does. -/
def mergeDedupGo (keys : List (Str × Str)) : List TranscriptSegment → List TranscriptSegment
  | [] => []
  | s :: rest =>
    if (s.start_time, s.end_time) ∈ keys then mergeDedupGo keys rest
    else s :: mergeDedupGo ((s.start_time, s.end_time) :: keys) rest

/-- Model of the fallback merge (ai.py lines 882-887): revalidated expanded
segments are appended to the existing list unless their
`(start_time, end_time)` window is already present. -/
def mergeDedup (base extra : List TranscriptSegment) : List TranscriptSegment :=
  base ++ mergeDedupGo (base.map fun s => (s.start_time, s.end_time)) extra

/-- Model of the post-LLM portion of `ai.get_most_relevant_parts_by_transcript`
(lines 861-891): validate the extracted candidates, sort by score
descending and truncate to `MAX_SEGMENTS`; when fewer than `MIN_SEGMENTS`
segments survive, run the expander over the original
`most_relevant_segments` list, revalidate, merge with deduplication, and
sort/truncate again.  `segments_data` is the candidate list selected by
`validate_and_fix_json_data` (possibly from an alternative key);
`original_segments` is the `most_relevant_segments` value the fallback
reads directly from the JSON. -/
def finalizeAnalysis (segments_data : List Candidate)
    (original_segments : List Candidate) (transcript : Str) :
    List TranscriptSegment :=
  let firstPass := sortTrim (validate_segments segments_data)
  if firstPass.length < MIN_SEGMENTS then
    sortTrim (mergeDedup firstPass
      (validate_segments (_expand_segments_with_transcript transcript original_segments)))
  else firstPass

-- Retry loop of ai.call_ollama (lines 290-446).

/-- Outcome of one HTTP attempt against the LLM endpoint, as seen by the
exception handlers of `call_ollama`: a transport timeout, a connection
error, an `HTTPError` carrying the response status (raised by
`raise_for_status` for any status of 400 and above), any other exception,
or a successful response whose final extracted response text is `body`. -/
inductive AttemptOutcome where
  | timeout
  | connError
  | httpError (status : ℕ)
  | otherError
  | ok (body : Str)
deriving DecidableEq

/-- Result of the retry loop: the returned text (if any), the number of
attempts performed, and the sleeps (in seconds) taken before retries. -/
structure CallResult where
  result : Option Str
  attempts : ℕ
  sleeps : List ℕ
deriving DecidableEq

/-- An attempt fails when it raises (timeout, connection error, HTTP error
of any status, other exception) or returns an empty response text. -/
def isFailureB : AttemptOutcome → Bool
  | .ok body => (stripChars body).isEmpty
  | _ => true

/-- Model of the `for attempt in range(max_retries + 1)` loop of
`call_ollama`: on every failure — regardless of kind, and with no
inspection of the HTTP status code — the loop sleeps `5 * 60` seconds and
retries while attempts remain; a non-empty stripped response text is
returned immediately. -/
def callGo (oracle : ℕ → AttemptOutcome) (attempt : ℕ) : ℕ → CallResult
  | 0 =>
    match oracle attempt with
    | .ok body =>
      match stripChars body with
      | [] => ⟨none, attempt + 1, []⟩
      | c :: cs => ⟨some (c :: cs), attempt + 1, []⟩
    | _ => ⟨none, attempt + 1, []⟩
  | remaining + 1 =>
    match oracle attempt with
    | .ok body =>
      match stripChars body with
      | [] =>
        let r := callGo oracle (attempt + 1) remaining
        ⟨r.result, r.attempts, 300 :: r.sleeps⟩
      | c :: cs => ⟨some (c :: cs), attempt + 1, []⟩
    | _ =>
      let r := callGo oracle (attempt + 1) remaining
      ⟨r.result, r.attempts, 300 :: r.sleeps⟩

/-- Model of `ai.call_ollama`: the oracle gives the outcome of each
attempt; the default allowance is `max_retries = 3` additional attempts. -/
def call_ollama (oracle : ℕ → AttemptOutcome) (max_retries : ℕ := 3) : CallResult :=
  callGo oracle 0 max_retries

-- JSON recovery of ai.extract_json_from_text (lines 454-529).

/-- Recogniser for the closing `\x7d` of a fenced block: succeeds when the
remaining text starts with optional whitespace followed by three
backticks, returning what follows them. -/
def fenceClose (rest : Str) : Option Str :=
  match rest.dropWhile isSpacePy with
  | '\x60' :: '\x60' :: '\x60' :: r => some r
  | _ => none

/-- Non-greedy search for the earliest closing brace that is followed by
optional whitespace and three backticks, mirroring the backtracking of the
pattern `(\x7b.*?\x7d)\s*` + three backticks; `acc` is the group matched so
far. -/
def findCloser (acc : Str) : Str → Option (Str × Str)
  | [] => none
  | c :: rest =>
    if c = '\x7d' then
      match fenceClose rest with
      | some r => some (acc ++ ['\x7d'], r)
      | none => findCloser (acc ++ [c]) rest
    else findCloser (acc ++ [c]) rest

/-- Match of the fenced-block body after the opening backticks and the
optional `json` tag: optional whitespace, an opening brace, then the
non-greedy group. -/
def matchBody (cs : Str) : Option (Str × Str) :=
  match cs.dropWhile isSpacePy with
  | '\x7b' :: rest => findCloser ['\x7b'] rest
  | _ => none

/-- Match after the opening backticks: the `json` tag is consumed greedily
when present, as by the optional group `(?:json)?`. -/
def matchFenceBody (rest : Str) : Option (Str × Str) :=
  match rest with
  | 'j' :: 's' :: 'o' :: 'n' :: r =>
    match matchBody r with
    | some g => some g
    | none => matchBody rest
  | _ => matchBody rest

/-- Left-to-right, non-overlapping scan for fenced code blocks containing a
JSON object, as `re.findall` performs with the dotall pattern of
`extract_json_from_text`; the fuel argument (initially the text length)
bounds the recursion, and every step consumes at least one character. -/
def findFencedGo : ℕ → Str → List Str
  | 0, _ => []
  | _, [] => []
  | fuel + 1, '\x60' :: '\x60' :: '\x60' :: rest =>
    match matchFenceBody rest with
    | some (grp, rem) => grp :: findFencedGo fuel rem
    | none => findFencedGo fuel ('\x60' :: '\x60' :: rest)
  | fuel + 1, _ :: cs => findFencedGo fuel cs

/-- All fenced code-block groups of the text, in order. -/
def findFencedBlocks (cs : Str) : List Str := findFencedGo cs.length cs

/-- Attempt `json.loads(match.strip())` on each found block in order,
returning the first successful parse. -/
def tryBlocks {J : Type} (parse : Str → Option J) : List Str → Option J
  | [] => none
  | b :: bs =>
    match parse (stripChars b) with
    | some r => some r
    | none => tryBlocks parse bs

/-- Balanced-brace scan (lines 505-525): track the brace depth from the
first opening brace, and at every closing brace that returns the depth to
zero attempt a parse of the prefix seen so far; the first success wins. -/
def braceScanGo {J : Type} (parse : Str → Option J) (pre : Str) (depth : Int) :
    Str → Option J
  | [] => none
  | c :: rest =>
    if c = '\x7b' then braceScanGo parse (pre ++ [c]) (depth + 1) rest
    else if c = '\x7d' then
      if depth - 1 = 0 then
        match parse (pre ++ [c]) with
        | some r => some r
        | none => braceScanGo parse (pre ++ [c]) (depth - 1) rest
      else braceScanGo parse (pre ++ [c]) (depth - 1) rest
    else braceScanGo parse (pre ++ [c]) depth rest

/-- Model of `ai.extract_json_from_text`.  The JSON parser `json.loads` is
abstracted as a function `parse` into an arbitrary result type; the
returned list models the log entries that dump the raw response text
verbatim on failure (the only log lines the model keeps). -/
def extract_json_from_text {J : Type} (parse : Str → Option J) (text : Str) :
    Option J × List Str :=
  if text.isEmpty then (none, [])
  else
    match parse (stripChars text) with
    | some r => (some r, [])
    | none =>
      match tryBlocks parse (findFencedBlocks text) with
      | some r => (some r, [])
      | none =>
        match text.dropWhile (fun c => c ≠ '\x7b') with
        | [] => (none, [text])
        | c :: rest =>
          match braceScanGo parse [] 0 (c :: rest) with
          | some r => (some r, [])
          | none => (none, [text])

-- Spec-side decomposition of the three recovery strategies (spec.md §4.2
-- step 4), to be compared with the code-side function above.

/-- Strategy (a) of the spec: direct parse of the whole (stripped) text. -/
def directStrategy {J : Type} (parse : Str → Option J) (text : Str) : Option J :=
  parse (stripChars text)

/-- Strategy (b) of the spec: extraction via the fenced-code-block pattern,
first successfully parsing block wins. -/
def fencedStrategy {J : Type} (parse : Str → Option J) (text : Str) : Option J :=
  tryBlocks parse (findFencedBlocks text)

/-- Strategy (c) of the spec: balanced-brace scan starting at the first
opening brace, attempting a parse at every depth-zero closing brace. -/
def braceStrategy {J : Type} (parse : Str → Option J) (text : Str) : Option J :=
  match text.dropWhile (fun c => c ≠ '\x7b') with
  | [] => none
  | tail => braceScanGo parse [] 0 tail

/-- The spec's recovery order: (a), then (b), then (c); first success wins. -/
def jsonRecoverySpec {J : Type} (parse : Str → Option J) (text : Str) : Option J :=
  (directStrategy parse text).orElse fun _ =>
    (fencedStrategy parse text).orElse fun _ => braceStrategy parse text

-- Subtitle layer: video_utils.create_whisper_subtitles (lines 602-652).

/-- Model of one cached word of the transcript cache (`words[]` entries,
millisecond timings). -/
structure WordData where
  text : Str
  start_ms : Int
  end_ms : Int
  confidence : ℚ
deriving DecidableEq

/-- A word translated to clip-relative seconds (`stop` models the Python
key `end`, a reserved word in Lean). -/
structure RelWord where
  text : Str
  start : ℚ
  stop : ℚ
deriving DecidableEq

/-- Python `max` on two rationals (returns the second on ties, which is
value-equal). -/
def pymax (a b : ℚ) : ℚ := if a ≤ b then b else a

/-- Python `min` on two rationals. -/
def pymin (a b : ℚ) : ℚ := if a ≤ b then a else b

/-- Milliseconds to seconds, the `/ 1000.0` conversions of the source. -/
def msToSec (x : Int) : ℚ := mkRat x 1000

/-- Word selection of `create_whisper_subtitles`: keep the words that
intersect the clip window, translate to clip-relative seconds with the
start clamped below at 0 and the end clamped above at the clip duration,
and drop words whose clamped interval is empty. -/
def selectRelevantWords (words : List WordData) (clip_start_ms clip_end_ms : Int) :
    List RelWord :=
  words.filterMap fun w =>
    if w.start_ms < clip_end_ms ∧ w.end_ms > clip_start_ms then
      let relative_start := pymax 0 (msToSec (w.start_ms - clip_start_ms))
      let relative_end := pymin (msToSec (clip_end_ms - clip_start_ms))
        (msToSec (w.end_ms - clip_start_ms))
      if relative_end > relative_start then
        some ⟨w.text, relative_start, relative_end⟩
      else none
    else none

/-- Partition into groups of `WORDS_PER_SUBTITLE = 3` (final group may be
shorter), as the stride-3 slicing loop does. -/
def chunk3 {α : Type} : List α → List (List α)
  | [] => []
  | a :: b :: c :: rest => [a, b, c] :: chunk3 rest
  | rest => [rest]

/-- One rendered subtitle overlay: its text, start offset and duration on
the clip timeline (`set_start` / `set_duration`). -/
structure SubtitleClip where
  text : Str
  start : ℚ
  duration : ℚ
deriving DecidableEq

/-- Model of `video_utils.create_whisper_subtitles`, taking the clip
window in source-timeline milliseconds (the source converts its float
second inputs with `int(x * 1000)` first) and the cached word list.
Rendering details (font, position) are not modelled; a group is emitted
exactly when its duration is positive. -/
def create_whisper_subtitles (words : List WordData)
    (clip_start_ms clip_end_ms : Int) : List SubtitleClip :=
  let relevant_words := selectRelevantWords words clip_start_ms clip_end_ms
  if relevant_words.isEmpty then []
  else
    (chunk3 relevant_words).filterMap fun word_group =>
      match word_group with
      | [] => none
      | w :: ws =>
        let segment_start := w.start
        let segment_end := ((w :: ws).getLast (by simp)).stop
        let segment_duration := segment_end - segment_start
        if segment_duration ≤ 0 then none
        else some ⟨joinSpace ((w :: ws).map RelWord.text), segment_start, segment_duration⟩

-- Clip index: video_utils.create_clips_from_segments (lines 821-875).

/-- Fractional-number parser modelling Python `float(str)` on plain
decimal forms (optional sign, digits, optional fractional part); exponent
and special forms are not modelled. -/
def parseUnsignedFloat (cs : Str) : Option ℚ :=
  let intPart := cs.takeWhile Char.isDigit
  let rest := cs.dropWhile Char.isDigit
  match rest with
  | [] => if intPart.isEmpty then none else some ((digitsFold intPart : ℚ))
  | '.' :: frac =>
    if frac.all Char.isDigit ∧ ¬(intPart.isEmpty ∧ frac.isEmpty) then
      some ((digitsFold intPart : ℚ) + mkRat (digitsFold frac) (10 ^ frac.length))
    else none
  | _ => none

/-- Model of Python `float(str)` (plain decimal forms). -/
def parseFloatPy (cs0 : Str) : Option ℚ :=
  let cs := stripChars cs0
  match cs with
  | '-' :: rest => (parseUnsignedFloat rest).map Neg.neg
  | '+' :: rest => parseUnsignedFloat rest
  | _ => parseUnsignedFloat cs

/-- Model of `video_utils.parse_timestamp_to_seconds` (distinct from the
ai.py parser): `MM:SS` or `HH:MM:SS` integer components with no
negativity check, or a plain float when no colon is present. -/
def parse_timestamp_vu (timestamp_str : Str) : Option ℚ :=
  let ts := stripChars timestamp_str
  if ts.contains ':' then
    match splitOnChar ':' ts with
    | [m, s] => do
      let minutes ← pyInt m
      let seconds ← pyInt s
      some ((minutes : ℚ) * 60 + (seconds : ℚ))
    | [h, m, s] => do
      let hours ← pyInt h
      let minutes ← pyInt m
      let seconds ← pyInt s
      some ((hours : ℚ) * 3600 + (minutes : ℚ) * 60 + (seconds : ℚ))
    | _ => none
  else parseFloatPy ts

/-- One record of the returned clip index. -/
structure ClipInfo where
  clip_id : ℕ
  filename : Str
  start_time : Str
  end_time : Str
  duration : ℚ
  text : Str
  relevance_score : ℚ
  reasoning : Str
deriving DecidableEq

/-- The clip filename `clip_{i}_{start}-{end}.mp4` with colons removed
from the timestamps (`str.replace(":", "")`). -/
def clipName (n : ℕ) (st en : Str) : Str :=
  ['c', 'l', 'i', 'p', '_'] ++ pyReprNat n ++ ['_'] ++ st.filter (fun c => c ≠ ':')
    ++ ['-'] ++ en.filter (fun c => c ≠ ':') ++ ['.', 'm', 'p', '4']

/-- Processing of the segment at 0-based position `i` inside
`create_clips_from_segments`: direct dict indexing raises `KeyError` on a
missing key (modelled by `none`, caught by the loop's `except`), the
timestamps are parsed with the video_utils parser, non-positive durations
are skipped, and `render` models the success of `create_optimized_clip`
(an external encoder effect).  The record is appended only on success. -/
def mkClip (render : ℕ → Candidate → Bool) (i : ℕ) (segment : Candidate) :
    Option ClipInfo := do
  let st ← segment.start_time
  let en ← segment.end_time
  let start_seconds ← parse_timestamp_vu st
  let end_seconds ← parse_timestamp_vu en
  let duration := end_seconds - start_seconds
  if duration ≤ 0 then none
  else
    if render i segment then do
      let text ← segment.text
      let relevance_score ← segment.relevance_score
      let reasoning ← segment.reasoning
      some { clip_id := i + 1, filename := clipName (i + 1) st en, start_time := st,
             end_time := en, duration := duration, text := text,
             relevance_score := relevance_score, reasoning := reasoning }
    else none

/-- The enumeration loop of `create_clips_from_segments`. -/
def clipsGo (render : ℕ → Candidate → Bool) (i : ℕ) : List Candidate → List ClipInfo
  | [] => []
  | seg :: rest =>
    match mkClip render i seg with
    | some c => c :: clipsGo render (i + 1) rest
    | none => clipsGo render (i + 1) rest

/-- Model of `video_utils.create_clips_from_segments`. -/
def create_clips_from_segments (render : ℕ → Candidate → Bool)
    (segments : List Candidate) : List ClipInfo :=
  clipsGo render 0 segments

-- Helper lemmas about the post-processing.

theorem sortTrim_length_le (l : List TranscriptSegment) :
    (sortTrim l).length ≤ MAX_SEGMENTS :=
  List.length_take_le _ _

theorem sortTrim_sorted (l : List TranscriptSegment) :
    List.Sorted scoreGe (sortTrim l) :=
  List.Pairwise.sublist (List.take_sublist _ _) (List.sorted_insertionSort scoreGe l)

theorem sortTrim_length_eq (l : List TranscriptSegment) :
    (sortTrim l).length = min MAX_SEGMENTS l.length := by
  simp only [sortTrim, List.length_take]
  rw [(List.perm_insertionSort scoreGe l).length_eq]

/-- C5: for every candidate list and transcript, the returned analysis
holds at most `MAX_SEGMENTS = 5` segments sorted by relevance score
descending, and when first-pass validation already accepts at least
`MIN_SEGMENTS = 3` candidates the result is exactly the sorted/truncated
first pass — the expander is not run (the transcript is not consulted at
all). -/
theorem c5_cap_sort_trigger (segments_data original_segments : List Candidate)
    (transcript : Str) :
    (finalizeAnalysis segments_data original_segments transcript).length ≤ MAX_SEGMENTS
    ∧ List.Sorted scoreGe (finalizeAnalysis segments_data original_segments transcript)
    ∧ (MIN_SEGMENTS ≤ (validate_segments segments_data).length →
        finalizeAnalysis segments_data original_segments transcript
          = sortTrim (validate_segments segments_data)) := by
  unfold finalizeAnalysis
  by_cases h : (sortTrim (validate_segments segments_data)).length < MIN_SEGMENTS
  · simp only [h, if_true]
    refine ⟨sortTrim_length_le _, sortTrim_sorted _, ?_⟩
    intro hmin
    exfalso
    rw [sortTrim_length_eq] at h
    simp only [MIN_SEGMENTS, MAX_SEGMENTS] at h hmin
    omega
  · simp only [h, if_false]
    exact ⟨sortTrim_length_le _, sortTrim_sorted _, fun _ => trivial⟩

theorem specRejects_false_of {c : Candidate} {s e : Int}
    (htok : 3 ≤ (splitWs (c.text.getD [])).length)
    (hs : parse_timestamp_to_seconds (c.start_time.getD []) = some s)
    (he : parse_timestamp_to_seconds (c.end_time.getD []) = some e)
    (hd1 : MIN_SEGMENT_DURATION ≤ e - s) (hd2 : e - s ≤ MAX_SEGMENT_DURATION)
    (hsc1 : 0 ≤ c.relevance_score.getD DEFAULT_SCORE)
    (hsc2 : c.relevance_score.getD DEFAULT_SCORE ≤ 1) :
    specRejects c = false := by
  have htext : (c.text.getD []).isEmpty = false := by
    cases htt : c.text.getD [] with
    | nil =>
      rw [htt] at htok
      exact absurd htok (by decide)
    | cons a l => rfl
  simp [specRejects, hs, he, htext, Nat.not_lt.mpr htok, not_lt.mpr hd1,
    not_lt.mpr hd2, not_lt.mpr hsc1, not_lt.mpr hsc2]

theorem validateOne_accepts {c : Candidate} {s e : Int}
    (htok : 3 ≤ (splitWs (c.text.getD [])).length)
    (hs : parse_timestamp_to_seconds (c.start_time.getD []) = some s)
    (he : parse_timestamp_to_seconds (c.end_time.getD []) = some e)
    (hd1 : MIN_SEGMENT_DURATION ≤ e - s) (hd2 : e - s ≤ MAX_SEGMENT_DURATION)
    (hsc1 : 0 ≤ c.relevance_score.getD DEFAULT_SCORE)
    (hsc2 : c.relevance_score.getD DEFAULT_SCORE ≤ 1) :
    validateOne c = some (toSegment c) := by
  rw [validateOne_eq, specRejects_false_of htok hs he hd1 hd2 hsc1 hsc2]
  simp

/-- C1: the validator rejects a candidate dict exactly when its text is
empty or has fewer than 3 whitespace-split tokens, or a timestamp fails to
parse as `[HH:]MM:SS` with non-negative components, or the duration
`end_s - start_s` lies outside `[30, 60]`, or the relevance score lies
outside `[0.0, 1.0]`; the accepted candidates are kept unchanged (with
documented defaults filled), in input order — stated as equality with the
spec-side filter. -/
theorem c1_validator_filter (l : List Candidate) :
    validate_segments l = (l.filter (fun c => !specRejects c)).map toSegment :=
  validate_segments_eq_filter l

/-- C7: parsing a formatted timestamp returns the original seconds value —
for every integer number of seconds, including values of 3600 and above
(the formatter renders minutes beyond 59 without truncation and the parser
accepts them), so both halves of the claim hold exactly. -/
theorem c7_parse_format_inverse (s : ℕ) :
    parse_timestamp_to_seconds (format_timestamp s) = some (s : Int) :=
  parse_format_roundtrip s

/-- C9: a candidate lacking the `relevance_score` key (and the `reasoning`
key) is not rejected: with valid text and timing it is accepted with the
silent defaults `relevance_score = 0.8` (`mkRat 4 5`) and reasoning
`"Engaging segment"`. -/
theorem c9_defaults_accepted (c : Candidate) (s e : Int)
    (hscore : c.relevance_score = none) (hreas : c.reasoning = none)
    (htok : 3 ≤ (splitWs (c.text.getD [])).length)
    (hs : parse_timestamp_to_seconds (c.start_time.getD []) = some s)
    (he : parse_timestamp_to_seconds (c.end_time.getD []) = some e)
    (hd1 : MIN_SEGMENT_DURATION ≤ e - s) (hd2 : e - s ≤ MAX_SEGMENT_DURATION) :
    validate_segments [c]
      = [{ start_time := c.start_time.getD [], end_time := c.end_time.getD [],
           text := c.text.getD [], relevance_score := DEFAULT_SCORE,
           reasoning := DEFAULT_REASONING }] := by
  have hsc1 : 0 ≤ c.relevance_score.getD DEFAULT_SCORE := by rw [hscore]; decide
  have hsc2 : c.relevance_score.getD DEFAULT_SCORE ≤ 1 := by rw [hscore]; decide
  simp only [validate_segments, validateOne_accepts htok hs he hd1 hd2 hsc1 hsc2]
  simp [toSegment, hscore, hreas]

def exCand9 : Candidate :=
  { start_time := some "00:10".toList, end_time := some "00:55".toList,
    text := some "never give up today".toList, relevance_score := none,
    reasoning := none }

/-- Witness for C9 at a concrete candidate with no score and no reasoning. -/
theorem c9_witness :
    validate_segments [exCand9]
      = [{ start_time := "00:10".toList, end_time := "00:55".toList,
           text := "never give up today".toList, relevance_score := DEFAULT_SCORE,
           reasoning := DEFAULT_REASONING }] :=
  c9_defaults_accepted exCand9 10 55 rfl rfl (by decide) (by decide) (by decide)
    (by decide) (by decide)

def exCands5 : List Candidate :=
  [ { start_time := some "00:00".toList, end_time := some "00:35".toList,
      text := some "rise and grind now".toList, relevance_score := some (mkRat 9 10),
      reasoning := some "r1".toList }
  , { start_time := some "00:40".toList, end_time := some "01:15".toList,
      text := some "keep moving forward".toList, relevance_score := some (mkRat 8 10),
      reasoning := some "r2".toList }
  , { start_time := some "01:20".toList, end_time := some "01:55".toList,
      text := some "trust the process".toList, relevance_score := some (mkRat 7 10),
      reasoning := some "r3".toList } ]

/-- Witness for C5: three first-pass accepted candidates, so the result is
exactly the sorted first pass and the expander is not consulted. -/
theorem c5_witness :
    MIN_SEGMENTS ≤ (validate_segments exCands5).length
    ∧ finalizeAnalysis exCands5 [] [] = sortTrim (validate_segments exCands5) :=
  ⟨by decide, (c5_cap_sort_trigger exCands5 [] []).2.2 (by decide)⟩
-- Characterization of the call_ollama retry loop.

theorem callGo_spec (oracle : ℕ → AttemptOutcome) :
    ∀ (remaining attempt : ℕ),
      (attempt + 1 ≤ (callGo oracle attempt remaining).attempts
        ∧ (callGo oracle attempt remaining).attempts ≤ attempt + remaining + 1)
      ∧ (callGo oracle attempt remaining).sleeps
          = List.replicate ((callGo oracle attempt remaining).attempts - attempt - 1) 300
      ∧ (∀ i, attempt ≤ i → i + 1 < (callGo oracle attempt remaining).attempts →
          isFailureB (oracle i) = true)
      ∧ ((∃ body, oracle ((callGo oracle attempt remaining).attempts - 1)
            = AttemptOutcome.ok body
            ∧ stripChars body ≠ []
            ∧ (callGo oracle attempt remaining).result = some (stripChars body))
         ∨ ((callGo oracle attempt remaining).attempts = attempt + remaining + 1
            ∧ (callGo oracle attempt remaining).result = none
            ∧ isFailureB (oracle ((callGo oracle attempt remaining).attempts - 1)) = true)) := by
  intro remaining
  induction remaining with
  | zero =>
    intro attempt
    cases hor : oracle attempt with
    | ok body =>
      cases hsb : stripChars body with
      | nil =>
        simp only [callGo, hor, hsb]
        refine ⟨⟨by omega, by omega⟩, by simp, fun i h1 h2 => by simp at h2; omega,
          Or.inr ⟨by trivial, by trivial, ?_⟩⟩
        simp only [Nat.add_sub_cancel, hor, isFailureB, hsb, List.isEmpty_nil]
      | cons c cs =>
        simp only [callGo, hor, hsb]
        refine ⟨⟨by omega, by omega⟩, by simp, fun i h1 h2 => by simp at h2; omega,
          Or.inl ⟨body, ?_, ?_, ?_⟩⟩
        · simpa using hor
        · simp [hsb]
        · simp [hsb]
    | timeout =>
      simp only [callGo, hor]
      exact ⟨⟨by omega, by omega⟩, by simp, fun i h1 h2 => by simp at h2; omega,
        Or.inr ⟨by trivial, by trivial, by simp only [Nat.add_sub_cancel, hor, isFailureB]⟩⟩
    | connError =>
      simp only [callGo, hor]
      exact ⟨⟨by omega, by omega⟩, by simp, fun i h1 h2 => by simp at h2; omega,
        Or.inr ⟨by trivial, by trivial, by simp only [Nat.add_sub_cancel, hor, isFailureB]⟩⟩
    | httpError status =>
      simp only [callGo, hor]
      exact ⟨⟨by omega, by omega⟩, by simp, fun i h1 h2 => by simp at h2; omega,
        Or.inr ⟨by trivial, by trivial, by simp only [Nat.add_sub_cancel, hor, isFailureB]⟩⟩
    | otherError =>
      simp only [callGo, hor]
      exact ⟨⟨by omega, by omega⟩, by simp, fun i h1 h2 => by simp at h2; omega,
        Or.inr ⟨by trivial, by trivial, by simp only [Nat.add_sub_cancel, hor, isFailureB]⟩⟩
  | succ remaining ih =>
    intro attempt
    have hretry : isFailureB (oracle attempt) = true →
        (callGo oracle attempt (remaining + 1)).result
            = (callGo oracle (attempt + 1) remaining).result
        ∧ (callGo oracle attempt (remaining + 1)).attempts
            = (callGo oracle (attempt + 1) remaining).attempts
        ∧ (callGo oracle attempt (remaining + 1)).sleeps
            = 300 :: (callGo oracle (attempt + 1) remaining).sleeps := by
      intro hfl
      cases hor : oracle attempt with
      | ok body =>
        rw [hor] at hfl
        simp only [isFailureB, List.isEmpty_iff] at hfl
        simp only [callGo, hor, hfl]
        exact ⟨by trivial, by trivial, by trivial⟩
      | timeout => simp only [callGo, hor]; exact ⟨by trivial, by trivial, by trivial⟩
      | connError => simp only [callGo, hor]; exact ⟨by trivial, by trivial, by trivial⟩
      | httpError status => simp only [callGo, hor]; exact ⟨by trivial, by trivial, by trivial⟩
      | otherError => simp only [callGo, hor]; exact ⟨by trivial, by trivial, by trivial⟩
    by_cases hfl : isFailureB (oracle attempt) = true
    · obtain ⟨hres, hatt, hsl⟩ := hretry hfl
      obtain ⟨⟨ihl, ihu⟩, ihsl, ihguard, ihfin⟩ := ih (attempt + 1)
      refine ⟨⟨by omega, by omega⟩, ?_, ?_, ?_⟩
      · rw [hsl, hatt, ihsl]
        have hcnt : (callGo oracle (attempt + 1) remaining).attempts - attempt - 1
            = ((callGo oracle (attempt + 1) remaining).attempts - (attempt + 1) - 1) + 1 := by
          omega
        rw [hcnt, List.replicate_succ]
      · intro i hi1 hi2
        rw [hatt] at hi2
        rcases Nat.eq_or_lt_of_le hi1 with rfl | hlt
        · exact hfl
        · exact ihguard i hlt hi2
      · rw [hres, hatt]
        rcases ihfin with h | ⟨h1, h2, h3⟩
        · exact Or.inl h
        · exact Or.inr ⟨by omega, h2, h3⟩
    · cases hor : oracle attempt with
      | ok body =>
        rw [hor] at hfl
        simp only [isFailureB] at hfl
        cases hsb : stripChars body with
        | nil => rw [hsb] at hfl; simp at hfl
        | cons c cs =>
          simp only [callGo, hor, hsb]
          refine ⟨⟨by omega, by omega⟩, by simp, fun i h1 h2 => by simp at h2; omega,
            Or.inl ⟨body, ?_, ?_, ?_⟩⟩
          · simpa using hor
          · simp [hsb]
          · simp [hsb]
      | timeout => rw [hor] at hfl; exact absurd rfl hfl
      | connError => rw [hor] at hfl; exact absurd rfl hfl
      | httpError status => rw [hor] at hfl; exact absurd rfl hfl
      | otherError => rw [hor] at hfl; exact absurd rfl hfl

/-- Oracle of the C3 counterexample: the first attempt receives an HTTP
404 response (a 4xx status other than 408/429); the second attempt
succeeds. -/
def oracle404 : ℕ → AttemptOutcome :=
  fun n => if n = 0 then AttemptOutcome.httpError 404 else AttemptOutcome.ok ['x']

/-- Counterexample to C3 as stated: after an HTTP 404 — a 4xx status other
than 408/429 — `call_ollama` performs a second attempt (2 attempts in
total, with one 300-second sleep) and returns the second attempt's body.
The handler for `HTTPError` retries regardless of status, so 4xx responses
are not exempt from retry. -/
theorem c3_counterexample :
    (call_ollama oracle404).attempts = 2
    ∧ (call_ollama oracle404).result = some ['x']
    ∧ (call_ollama oracle404).sleeps = [300] := by decide

/-- C3 (amended): the LLM call is retried, up to `max_retries = 3`
additional attempts with a fixed 300-second sleep before each retry, on
every failed attempt regardless of kind — transport timeout, connection
error, an HTTP error of any status (4xx statuses included, with no 408/429
carve-out), any other exception, or an empty response body; the first
attempt whose stripped response text is non-empty is returned, and after
four failed attempts the result is `None`. -/
theorem c3_retry_on_any_failure (oracle : ℕ → AttemptOutcome) :
    (1 ≤ (call_ollama oracle).attempts ∧ (call_ollama oracle).attempts ≤ 4)
    ∧ (call_ollama oracle).sleeps
        = List.replicate ((call_ollama oracle).attempts - 1) 300
    ∧ (∀ i, i + 1 < (call_ollama oracle).attempts → isFailureB (oracle i) = true)
    ∧ ((∃ body, oracle ((call_ollama oracle).attempts - 1) = AttemptOutcome.ok body
          ∧ stripChars body ≠ []
          ∧ (call_ollama oracle).result = some (stripChars body))
       ∨ ((call_ollama oracle).attempts = 4 ∧ (call_ollama oracle).result = none
          ∧ isFailureB (oracle 3) = true)) := by
  obtain ⟨⟨h1, h2⟩, h3, h4, h5⟩ := callGo_spec oracle 3 0
  simp only [call_ollama]
  refine ⟨⟨by omega, by omega⟩, by simpa using h3, fun i hi => h4 i (by omega) hi, ?_⟩
  rcases h5 with h | ⟨ha, hb, hc⟩
  · exact Or.inl h
  · refine Or.inr ⟨by omega, hb, ?_⟩
    rw [show (3 : ℕ) = (callGo oracle 0 3).attempts - 1 by omega]
    exact hc

/-- Witness for C3 (amended) at an always-succeeding oracle, via the
sleeps characterization. -/
theorem c3_witness :
    (call_ollama (fun _ => AttemptOutcome.ok ['h', 'i'])).sleeps
      = List.replicate
          ((call_ollama (fun _ => AttemptOutcome.ok ['h', 'i'])).attempts - 1) 300 :=
  (c3_retry_on_any_failure (fun _ => AttemptOutcome.ok ['h', 'i'])).2.1

-- Characterization of the expander's growth loop.

/-- End time after a prefix of appended lines: the last appended line's
end, or the seed end when nothing was appended. -/
def lastEnd (curEnd : Int) (l : List TEntry) : Int :=
  (l.getLast?.map TEntry.end_s).getD curEnd

theorem lastEnd_nil (curEnd : Int) : lastEnd curEnd [] = curEnd := rfl

theorem lastEnd_cons (curEnd : Int) (e : TEntry) (l : List TEntry) :
    lastEnd curEnd (e :: l) = lastEnd e.end_s l := by
  cases l with
  | nil => rfl
  | cons f fs =>
    simp only [lastEnd, List.getLast?_cons_cons]
    cases hgl : (f :: fs).getLast? with
    | none => exact absurd hgl (by simp)
    | some x => simp

/-- C4 (amended): characterization of the expander's line-appending loop.
Starting from seed end `curEnd`, the loop appends the texts of a prefix of
`entries` of some length `k`: every line was appended only while the
running duration (before the append) was below `MIN_SEGMENT_DURATION`, and
the loop stops exactly when (a) the duration after an append reaches
`MIN_SEGMENT_DURATION`, (b) the just-appended line pushed the duration
beyond `MAX_SEGMENT_DURATION` — that overshooting line is still included,
its text appended and its end adopted — or (c) the line stream is
exhausted. -/
theorem c4_growLoop_characterization (new_start_s : Int) (entries : List TEntry)
    (curEnd : Int) :
    ∃ k ≤ entries.length,
      (growLoop new_start_s curEnd entries).2 = ((entries.take k).map TEntry.text)
      ∧ (growLoop new_start_s curEnd entries).1 = lastEnd curEnd (entries.take k)
      ∧ (∀ m < k, lastEnd curEnd (entries.take m) - new_start_s < MIN_SEGMENT_DURATION)
      ∧ (MIN_SEGMENT_DURATION ≤ lastEnd curEnd (entries.take k) - new_start_s
         ∨ MAX_SEGMENT_DURATION < lastEnd curEnd (entries.take k) - new_start_s
         ∨ k = entries.length) := by
  induction entries generalizing curEnd with
  | nil =>
    refine ⟨0, by simp, by simp [growLoop], by simp [growLoop, lastEnd_nil], ?_, ?_⟩
    · intro m hm; omega
    · right; right; rfl
  | cons e es ih =>
    by_cases hmin : curEnd - new_start_s < MIN_SEGMENT_DURATION
    · by_cases hmax : e.end_s - new_start_s > MAX_SEGMENT_DURATION
      · refine ⟨1, by simp, ?_, ?_, ?_, ?_⟩
        · simp [growLoop, hmin, hmax]
        · simp [growLoop, hmin, hmax, lastEnd_cons, lastEnd_nil]
        · intro m hm
          have hm0 : m = 0 := by omega
          subst hm0
          simpa [lastEnd_nil] using hmin
        · right; left
          simpa [lastEnd_cons, lastEnd_nil] using hmax
      · obtain ⟨k, hk, htexts, hend, hguard, hstop⟩ := ih e.end_s
        refine ⟨k + 1, by simpa using Nat.succ_le_succ hk, ?_, ?_, ?_, ?_⟩
        · simp only [growLoop, if_pos hmin, if_neg hmax, List.take_succ_cons,
            List.map_cons]
          rw [htexts]
        · simp only [growLoop, if_pos hmin, if_neg hmax, List.take_succ_cons,
            lastEnd_cons]
          exact hend
        · intro m hm
          cases m with
          | zero => simpa [lastEnd_nil] using hmin
          | succ m' =>
            rw [List.take_succ_cons, lastEnd_cons]
            exact hguard m' (by omega)
        · rw [List.take_succ_cons, lastEnd_cons]
          rcases hstop with h | h | h
          · exact Or.inl h
          · exact Or.inr (Or.inl h)
          · exact Or.inr (Or.inr (by simp [h]))
    · refine ⟨0, by simp, by simp [growLoop, hmin], by simp [growLoop, hmin, lastEnd_nil], ?_, ?_⟩
      · intro m hm; omega
      · left
        rw [List.take_zero, lastEnd_nil]
        omega

/-- Transcript entry used in the C4 counterexample: a line of 32 seconds
following a 29-second running duration. -/
def exEntryOvershoot : TEntry :=
  { start_time := "00:29".toList, end_time := "01:01".toList,
    start_s := 29, end_s := 61, text := "delta epsilon zeta".toList }

/-- Counterexample to C4 as stated: with a running duration of 29 s, the
next line ends at 61 s, so appending it pushes the duration to 61 s,
beyond `MAX_SEGMENT_DURATION = 60`; the loop nevertheless includes that
line — its text is appended and its end time adopted — and only then
stops, contradicting "a line whose inclusion would push the duration
beyond MAX_SEGMENT_DURATION is not included". -/
theorem c4_counterexample :
    growLoop 0 29 [exEntryOvershoot] = (61, ["delta epsilon zeta".toList])
    ∧ (61 : Int) - 0 > MAX_SEGMENT_DURATION := by decide

/-- C2 (amended): every segment emitted by the expander whose (formatted)
times parse back to a duration within `[30, 60]` — not `[30, 62]` — and
whose concatenated text has at least 3 whitespace tokens and whose
preserved relevance score lies in `[0, 1]` passes re-validation and so
enters the merge that forms the final analysis (subject to the
`MIN_SEGMENTS` trigger, `(start_time, end_time)` deduplication and the
`MAX_SEGMENTS` score-ranked truncation); expanded durations in `(60, 62]`
are emitted by the expander but rejected by re-validation. -/
theorem c2_expanded_within_60_revalidates (transcript : Str)
    (cands : List Candidate) (seg : Candidate) (s e : Int)
    (hmem : seg ∈ _expand_segments_with_transcript transcript cands)
    (hs : parse_timestamp_to_seconds (seg.start_time.getD []) = some s)
    (he : parse_timestamp_to_seconds (seg.end_time.getD []) = some e)
    (hd1 : MIN_SEGMENT_DURATION ≤ e - s) (hd2 : e - s ≤ MAX_SEGMENT_DURATION)
    (htok : 3 ≤ (splitWs (seg.text.getD [])).length)
    (hsc1 : 0 ≤ seg.relevance_score.getD DEFAULT_SCORE)
    (hsc2 : seg.relevance_score.getD DEFAULT_SCORE ≤ 1) :
    toSegment seg
      ∈ validate_segments (_expand_segments_with_transcript transcript cands) := by
  rw [validate_segments_eq_filter]
  exact List.mem_map_of_mem toSegment
    (List.mem_filter.mpr
      ⟨hmem, by simp [specRejects_false_of htok hs he hd1 hd2 hsc1 hsc2]⟩)

/-- Transcript of the C2 counterexample: two lines, 29 s and 32 s long. -/
def exTranscript2 : Str :=
  "[00:00 - 00:29] alpha beta gamma\n[00:29 - 01:01] delta epsilon zeta".toList

/-- Under-length candidate (10 s) rejected by first-pass validation. -/
def exCand2 : Candidate :=
  { start_time := some "00:00".toList, end_time := some "00:10".toList,
    text := some "too short clip".toList, relevance_score := some (mkRat 9 10),
    reasoning := some "r".toList }

/-- Counterexample to C2 as stated: the rejected candidate expands to a
duration of 61 s, inside the claimed acceptance band `[30, 62]`, and the
expander emits it — but re-validation (which enforces `[30, 60]`) rejects
it, and the final analysis is empty: the expanded candidate never becomes
an accepted segment. -/
theorem c2_counterexample :
    ((_expand_segments_with_transcript exTranscript2 [exCand2]).map
        (fun seg => (parse_timestamp_to_seconds (seg.start_time.getD []),
                     parse_timestamp_to_seconds (seg.end_time.getD []))))
      = [(some 0, some 61)]
    ∧ validate_segments (_expand_segments_with_transcript exTranscript2 [exCand2]) = []
    ∧ finalizeAnalysis [exCand2] [exCand2] exTranscript2 = [] := by decide

/-- Transcript for the C2 witness: two lines expanding a candidate to 45 s. -/
def exTranscript2b : Str :=
  "[00:00 - 00:20] alpha beta gamma\n[00:20 - 00:45] delta epsilon".toList

/-- Under-length candidate (5 s) for the C2 witness. -/
def exCand2b : Candidate :=
  { start_time := some "00:00".toList, end_time := some "00:05".toList,
    text := some "x y z".toList, relevance_score := some (mkRat 9 10),
    reasoning := some "why".toList }

/-- The segment the expander emits for `exCand2b` over `exTranscript2b`. -/
def exExpanded2b : Candidate :=
  { start_time := some "00:00".toList, end_time := some "00:45".toList,
    text := some "x y z alpha beta gamma delta epsilon".toList,
    relevance_score := some (mkRat 9 10), reasoning := some "why".toList }

/-- Witness for C2 (amended): a concrete 45-second expansion passes
re-validation. -/
theorem c2_witness :
    toSegment exExpanded2b
      ∈ validate_segments (_expand_segments_with_transcript exTranscript2b [exCand2b]) :=
  c2_expanded_within_60_revalidates exTranscript2b [exCand2b] exExpanded2b 0 45
    (by decide) (by decide) (by decide) (by decide) (by decide) (by decide)
    (by decide) (by decide)

/-- C6: JSON recovery proceeds in the spec's order — (a) direct parse of
the whole text, (b) the first successfully-parsing fenced code block, (c)
the balanced-brace scan from the first opening brace — returning the first
successful parse; when all fail the result is `none` and the raw response
text appears verbatim in the failure log (for non-empty input; empty input
short-circuits before any strategy).  The hypothesis `parse [] = none`
records that `json.loads` fails on the empty string. -/
theorem c6_recovery_order {J : Type} (parse : Str → Option J) (text : Str)
    (hparse : parse [] = none) :
    (extract_json_from_text parse text).1 = jsonRecoverySpec parse text
    ∧ ((extract_json_from_text parse text).1 = none → text ≠ [] →
        text ∈ (extract_json_from_text parse text).2) := by
  unfold extract_json_from_text jsonRecoverySpec directStrategy fencedStrategy
    braceStrategy
  by_cases hemp : text.isEmpty = true
  · have htext : text = [] := List.isEmpty_iff.mp hemp
    subst htext
    simp [hparse, tryBlocks, findFencedBlocks, findFencedGo, stripChars]
  · simp only [hemp, Bool.false_eq_true, if_false]
    cases hdir : parse (stripChars text) with
    | some r => simp [Option.orElse, hdir]
    | none =>
      cases hfen : tryBlocks parse (findFencedBlocks text) with
      | some r => simp [Option.orElse, hdir, hfen]
      | none =>
        cases htail : text.dropWhile (fun c => c ≠ '\x7b') with
        | nil => simp [Option.orElse, hdir, hfen, htail]
        | cons c rest =>
          cases hbr : braceScanGo parse [] 0 (c :: rest) with
          | some r => simp [Option.orElse, hdir, hfen, htail, hbr]
          | none => simp [Option.orElse, hdir, hfen, htail, hbr]

/-- Toy parser of the C6 witness: accepts exactly the two-character object
text. -/
def parseW : Str → Option ℕ :=
  fun s => if s = ['\x7b', '\x7d'] then some 1 else none

/-- Response text of the C6 witness: prose followed by a fenced block. -/
def textW : Str :=
  ['a', ' ', '\x60', '\x60', '\x60', 'j', 's', 'o', 'n', ' ',
   '\x7b', '\x7d', '\x60', '\x60', '\x60']

/-- Witness for C6 at a concrete parser and response text. -/
theorem c6_witness :
    (extract_json_from_text parseW textW).1 = jsonRecoverySpec parseW textW :=
  (c6_recovery_order parseW textW (by decide)).1

-- Bounds on the words selected for subtitles.

theorem pymax_zero_le (b : ℚ) : 0 ≤ pymax 0 b := by
  unfold pymax
  split
  · assumption
  · exact le_refl 0

theorem pymin_le_left (a b : ℚ) : pymin a b ≤ a := by
  unfold pymin
  split
  · exact le_refl a
  · exact (not_le.mp (by assumption)).le

theorem selectRelevantWords_bounds {words : List WordData} {cs ce : Int}
    {w : RelWord} (hw : w ∈ selectRelevantWords words cs ce) :
    0 ≤ w.start ∧ w.start < w.stop ∧ w.stop ≤ msToSec (ce - cs) := by
  simp only [selectRelevantWords, List.mem_filterMap] at hw
  obtain ⟨wd, hwd, hf⟩ := hw
  split at hf
  · split at hf
    · rename_i hcmp
      cases hf
      exact ⟨pymax_zero_le _, hcmp, pymin_le_left _ _⟩
    · exact absurd hf (by simp)
  · exact absurd hf (by simp)

theorem chunk3_mem {α : Type} : ∀ (l g : List α), g ∈ chunk3 l → ∀ x ∈ g, x ∈ l
  | [], g, hg => by simp [chunk3] at hg
  | [a], g, hg => by
    simp only [chunk3, List.mem_singleton] at hg
    subst hg
    exact fun x hx => hx
  | [a, b], g, hg => by
    simp only [chunk3, List.mem_singleton] at hg
    subst hg
    exact fun x hx => hx
  | a :: b :: c :: rest, g, hg => by
    simp only [chunk3, List.mem_cons] at hg
    rcases hg with rfl | hg
    · intro x hx
      simp only [List.mem_cons] at hx ⊢
      tauto
    · intro x hx
      have hrest := chunk3_mem rest g hg x hx
      exact List.mem_cons_of_mem _ (List.mem_cons_of_mem _ (List.mem_cons_of_mem _ hrest))

/-- C8: every subtitle emitted for a clip satisfies
`0 ≤ start ≤ end ≤ clip duration` on the clip timeline, where
`end = start + duration` and the clip duration is
`(clip_end_ms - clip_start_ms) / 1000`: selected words intersect the
window with their times clamped to `[0, clip_duration]`, and groups with
non-positive duration are dropped. -/
theorem c8_subtitle_containment (words : List WordData)
    (clip_start_ms clip_end_ms : Int) (sub : SubtitleClip)
    (hmem : sub ∈ create_whisper_subtitles words clip_start_ms clip_end_ms) :
    0 ≤ sub.start ∧ sub.start ≤ sub.start + sub.duration
      ∧ sub.start + sub.duration ≤ msToSec (clip_end_ms - clip_start_ms) := by
  unfold create_whisper_subtitles at hmem
  by_cases hrel :
      (selectRelevantWords words clip_start_ms clip_end_ms).isEmpty = true
  · rw [if_pos hrel] at hmem
    simp at hmem
  · rw [if_neg hrel] at hmem
    simp only [List.mem_filterMap] at hmem
    obtain ⟨g, hg, hf⟩ := hmem
    cases g with
    | nil => simp at hf
    | cons w ws =>
      simp only at hf
      split at hf
      · exact absurd hf (by simp)
      · rename_i hdur
        have hlastmem : (w :: ws).getLast (by simp) ∈ w :: ws := List.getLast_mem _
        have hwmem : w ∈ selectRelevantWords words clip_start_ms clip_end_ms :=
          chunk3_mem _ _ hg w (List.mem_cons_self w ws)
        have hlmem : (w :: ws).getLast (by simp)
            ∈ selectRelevantWords words clip_start_ms clip_end_ms :=
          chunk3_mem _ _ hg _ hlastmem
        obtain ⟨hw0, hwlt, hwle⟩ := selectRelevantWords_bounds hwmem
        obtain ⟨hl0, hllt, hlle⟩ := selectRelevantWords_bounds hlmem
        cases hf
        push_neg at hdur
        constructor
        · exact hw0
        constructor
        · simp only
          linarith
        · simp only
          linarith

def exWords8 : List WordData :=
  [ { text := "up".toList, start_ms := 0, end_ms := 2000, confidence := 1 }
  , { text := "and".toList, start_ms := 2000, end_ms := 4000, confidence := 1 }
  , { text := "go".toList, start_ms := 4000, end_ms := 6000, confidence := 1 } ]

def exSub8 : SubtitleClip := { text := "up and go".toList, start := 0, duration := 6 }

/-- Witness for C8 at a concrete cached word list and clip window. -/
theorem c8_witness :
    0 ≤ exSub8.start ∧ exSub8.start ≤ exSub8.start + exSub8.duration
      ∧ exSub8.start + exSub8.duration ≤ msToSec (10000 - 0) :=
  c8_subtitle_containment exWords8 0 10000 exSub8 (by with_unfolding_all decide)

-- Structure of the returned clip index.

theorem mkClip_clip_id {render : ℕ → Candidate → Bool} {i : ℕ}
    {segment : Candidate} {c : ClipInfo} (h : mkClip render i segment = some c) :
    c.clip_id = i + 1 := by
  simp only [mkClip, Option.bind_eq_bind, Option.bind_eq_some] at h
  obtain ⟨st, hst, en, hen, ss, hss, es, hes, h⟩ := h
  split at h
  · exact absurd h (by simp)
  · split at h
    · simp only [Option.bind_eq_some] at h
      obtain ⟨tx, htx, sc, hsc, rs, hrs, h⟩ := h
      cases h
      rfl
    · exact absurd h (by simp)

theorem clipsGo_spec (render : ℕ → Candidate → Bool) :
    ∀ (segments : List Candidate) (i : ℕ),
      List.Chain' (fun a b => a.clip_id < b.clip_id) (clipsGo render i segments)
      ∧ ∀ c ∈ clipsGo render i segments,
          i + 1 ≤ c.clip_id ∧ c.clip_id ≤ i + segments.length
          ∧ ∃ seg, segments.get? (c.clip_id - 1 - i) = some seg
              ∧ mkClip render (c.clip_id - 1) seg = some c := by
  intro segments
  induction segments with
  | nil => exact fun i => ⟨List.chain'_nil, fun c hc => absurd hc (by simp [clipsGo])⟩
  | cons seg rest ih =>
    intro i
    cases hmk : mkClip render i seg with
    | none =>
      have hgo : clipsGo render i (seg :: rest) = clipsGo render (i + 1) rest := by
        simp [clipsGo, hmk]
      obtain ⟨ihchain, ihmem⟩ := ih (i + 1)
      rw [hgo]
      refine ⟨ihchain, fun c hc => ?_⟩
      obtain ⟨h1, h2, s, hs, hm⟩ := ihmem c hc
      refine ⟨by omega, by simp only [List.length_cons]; omega, s, ?_, hm⟩
      rw [show c.clip_id - 1 - i = (c.clip_id - 1 - (i + 1)) + 1 by omega]
      simpa using hs
    | some c0 =>
      have hgo : clipsGo render i (seg :: rest) = c0 :: clipsGo render (i + 1) rest := by
        simp [clipsGo, hmk]
      obtain ⟨ihchain, ihmem⟩ := ih (i + 1)
      have hid : c0.clip_id = i + 1 := mkClip_clip_id hmk
      rw [hgo]
      constructor
      · rw [List.chain'_cons']
        refine ⟨fun y hy => ?_, ihchain⟩
        have hymem : y ∈ clipsGo render (i + 1) rest := by
          cases hh : (clipsGo render (i + 1) rest).head? with
          | none => rw [hh] at hy; simp at hy
          | some z =>
            rw [hh] at hy
            simp only [Option.mem_def, Option.some.injEq] at hy
            subst hy
            exact List.mem_of_mem_head? hh
        obtain ⟨hy1, _, _⟩ := ihmem y hymem
        omega
      · intro c hc
        rcases List.mem_cons.mp hc with rfl | hc
        · refine ⟨by omega, by simp only [List.length_cons]; omega, seg, ?_, ?_⟩
          · rw [show c.clip_id - 1 - i = 0 by omega]
            rfl
          · rw [show c.clip_id - 1 = i by omega]
            exact hmk
        · obtain ⟨h1, h2, s, hs, hm⟩ := ihmem c hc
          refine ⟨by omega, by simp only [List.length_cons]; omega, s, ?_, hm⟩
          rw [show c.clip_id - 1 - i = (c.clip_id - 1 - (i + 1)) + 1 by omega]
          simpa using hs

/-- C10: in the returned clip index the records appear in input order with
strictly increasing `clip_id`s (gaps allowed where a segment was skipped
or failed to render), and each record's `clip_id` equals the 1-based
position of its source segment, which produced exactly that record. -/
theorem c10_clip_index (render : ℕ → Candidate → Bool) (segments : List Candidate) :
    List.Chain' (fun a b => a.clip_id < b.clip_id)
        (create_clips_from_segments render segments)
    ∧ ∀ c ∈ create_clips_from_segments render segments,
        1 ≤ c.clip_id ∧ c.clip_id ≤ segments.length
        ∧ ∃ seg, segments.get? (c.clip_id - 1) = some seg
            ∧ mkClip render (c.clip_id - 1) seg = some c := by
  obtain ⟨hchain, hmem⟩ := clipsGo_spec render segments 0
  refine ⟨hchain, fun c hc => ?_⟩
  obtain ⟨h1, h2, s, hs, hm⟩ := hmem c hc
  exact ⟨by omega, by omega, s, by simpa using hs, hm⟩

/-- Renderer oracle of the C10 witness: every encode succeeds. -/
def renderAll : ℕ → Candidate → Bool := fun _ _ => true

def exSegs10 : List Candidate :=
  [ { start_time := some "00:00".toList, end_time := some "00:30".toList,
      text := some "one two three".toList, relevance_score := some (mkRat 9 10),
      reasoning := some "a".toList }
  , { start_time := some "00:10".toList, end_time := some "00:10".toList,
      text := some "zero length".toList, relevance_score := some (mkRat 8 10),
      reasoning := some "b".toList }
  , { start_time := some "01:00".toList, end_time := some "01:40".toList,
      text := some "four five six".toList, relevance_score := some (mkRat 7 10),
      reasoning := some "c".toList } ]

/-- Witness for C10: with the middle segment skipped (non-positive
duration), the index keeps input order with `clip_id`s `[1, 3]` — strictly
increasing with a gap. -/
theorem c10_witness :
    List.Chain' (fun a b => a.clip_id < b.clip_id)
        (create_clips_from_segments renderAll exSegs10)
    ∧ (create_clips_from_segments renderAll exSegs10).map ClipInfo.clip_id = [1, 3] :=
  ⟨(c10_clip_index renderAll exSegs10).1, by with_unfolding_all decide⟩
